import Mathlib

/-!
Verification of the interaction engine of a terminal task-sequencer
(`mise-command-sequencer`).  The Rust sources are shallowly embedded:

* `src/models/sequence.rs` — `SequenceState` and its operations.  The Rust
  `HashMap<String, Vec<bool>>` is embedded as an association list
  `List (String × List Bool)`; `SequenceState.WF` records the representation
  invariants the Rust type guarantees (keys are unique, every step vector has
  length `num_steps`).
* `src/app/mod.rs`, `src/app/event_handlers.rs`, `src/app/sequence_management.rs`
  — the `App` aggregate, its event handlers and the sequence orchestrator.
  The asynchronous step runner spawned by `execute_tasks_for_step` is embedded
  as a pure function of an environment `Env` describing each external process
  (its streamed output and exit code, or a spawn failure); the events it sends
  are delivered through a FIFO queue (`runLoop`), matching the single ordered
  event stream of the real main loop.
* `src/mise/client.rs` — `run_task` (as a function of the process outcome),
  `find_unique_task_name`, and `rename_task` restricted to the config-based
  path, where the mise.toml tasks table is embedded as an association list.

Collaborator-only concerns (terminal drawing, real process spawning, file IO,
timing) are outside the embedding; fields of `App` that only serve rendering
(layout cache, hover state) are omitted.
-/

namespace MiseSequencer

/-- `MiseTask` from `src/models/mise_task.rs`, restricted to the fields the
verified operations consult (`name`; `source` is kept for context). -/
structure MiseTask where
  name : String
  source : String
deriving Repr, DecidableEq

/-- `SequenceState` from `src/models/sequence.rs`.  `task_steps` is the
`HashMap<String, Vec<bool>>` as an association list. -/
structure SequenceState where
  taskSteps : List (String × List Bool)
  numSteps : Nat
  currentStep : Option Nat
  isRunning : Bool
  completedSteps : List Bool
deriving Repr, DecidableEq

namespace SequenceState

/-- `SequenceState::new`. -/
def new (numSteps : Nat) : SequenceState :=
  { taskSteps := []
    numSteps := numSteps
    currentStep := none
    isRunning := false
    completedSteps := List.replicate numSteps false }

/-- The boolean the Rust code computes for one step vector:
`step < steps.len() && steps[step]` (reads of `steps[step]` in the source are
always guarded by `step < steps.len()`). -/
def stepSlot (v : List Bool) (step : Nat) : Bool :=
  decide (step < v.length) && v.getD step false

/-- The clearing loop of `SequenceState::set_task_step`: set slot `step` of
every entry to `false` (the write is guarded by `step < other_steps.len()`,
which `List.set` matches by being a no-op out of range). -/
def clearStep (l : List (String × List Bool)) (step : Nat) :
    List (String × List Bool) :=
  l.map (fun p => (p.1, p.2.set step false))

/-- The `entry(..).or_insert_with(..)` write of `SequenceState::set_task_step`:
update the entry in place when the key is present, otherwise append a fresh
`vec![false; num_steps]`; then set slot `step` (guarded by
`step < steps.len()`). -/
def writeEntry (l : List (String × List Bool)) (taskName : String)
    (numSteps step : Nat) (enabled : Bool) : List (String × List Bool) :=
  if l.any (fun p => p.1 == taskName) then
    l.map (fun p =>
      if p.1 == taskName then (p.1, p.2.set step enabled) else p)
  else
    l ++ [(taskName, (List.replicate numSteps false).set step enabled)]

/-- `SequenceState::set_task_step`: inside the `step < num_steps` guard, run
the clearing loop when enabling, then write the entry. -/
def setTaskStep (s : SequenceState) (taskName : String) (step : Nat)
    (enabled : Bool) : SequenceState :=
  if step < s.numSteps then
    { s with
      taskSteps :=
        writeEntry
          (if enabled then clearStep s.taskSteps step else s.taskSteps)
          taskName s.numSteps step enabled }
  else
    s

/-- The body of `SequenceState::is_task_enabled_for_step` on the entry list:
`task_steps.get(name).map(|steps| step < steps.len() && steps[step])
.unwrap_or(false)`. -/
def lookupSlot (l : List (String × List Bool)) (taskName : String) (step : Nat) :
    Bool :=
  match l.find? (fun p => p.1 == taskName) with
  | some p => stepSlot p.2 step
  | none => false

/-- `SequenceState::is_task_enabled_for_step`. -/
def isTaskEnabledForStep (s : SequenceState) (taskName : String) (step : Nat) :
    Bool :=
  lookupSlot s.taskSteps taskName step

/-- `SequenceState::get_tasks_for_step`. -/
def getTasksForStep (s : SequenceState) (step : Nat) : List String :=
  s.taskSteps.filterMap (fun p =>
    if stepSlot p.2 step then some p.1 else none)

/-- `SequenceState::reset_execution`. -/
def resetExecution (s : SequenceState) : SequenceState :=
  { s with
    currentStep := none
    isRunning := false
    completedSteps := s.completedSteps.map (fun _ => false) }

/-- `SequenceState::clear_all`. -/
def clearAll (s : SequenceState) : SequenceState :=
  resetExecution
    { s with taskSteps := s.taskSteps.map (fun p => (p.1, p.2.map (fun _ => false))) }

/-- `SequenceState::start_execution`. -/
def startExecution (s : SequenceState) : SequenceState :=
  { s with
    currentStep := some 0
    isRunning := true
    completedSteps := s.completedSteps.map (fun _ => false) }

/-- `SequenceState::advance_step`; the returned boolean is the Rust return
value (`true` when a further step remains).  The write
`completed_steps[current] = true` is in range in every reachable state
(`current < num_steps = completed_steps.len()`); `List.set` is its total
embedding. -/
def advanceStep (s : SequenceState) : SequenceState × Bool :=
  match s.currentStep with
  | some current =>
    let s1 := { s with completedSteps := s.completedSteps.set current true }
    if current + 1 < s1.numSteps then
      ({ s1 with currentStep := some (current + 1) }, true)
    else
      ({ s1 with currentStep := none, isRunning := false }, false)
  | none => (s, false)

/-- Representation invariants the Rust `SequenceState` maintains: HashMap keys
are unique, and every step vector was created as `vec![false; num_steps]`. -/
def WF (s : SequenceState) : Prop :=
  (s.taskSteps.map Prod.fst).Nodup ∧ ∀ p ∈ s.taskSteps, p.2.length = s.numSteps

/-- The spec invariant: each step has at most one enabled task. -/
def stepExclusive (s : SequenceState) : Prop :=
  ∀ step, (s.getTasksForStep step).length ≤ 1

end SequenceState

/-- `AppState` from `src/models/app_state.rs`. -/
inductive AppState where
  | Detail (task : String)
  | Running (task : String)
  | SequenceBuilder
  | Renaming (task : String)
deriving Repr, DecidableEq

/-- `SequenceEvent` from `src/models/sequence.rs` (the variants dispatched by
`App::handle_sequence_event`; `AddAsTask` touches only collaborator state and
is not embedded). -/
inductive SequenceEvent where
  | toggleStep (taskName : String) (step : Nat)
  | runSequence
  | clearSequence
  | stepCompleted
  | sequenceCompleted
  | sequenceFailed (error : String)
deriving Repr, DecidableEq

/-- The events of `src/models/app_event.rs` the verified handlers consume. -/
inductive AppEvent where
  | taskOutput (line : String)
  | taskCompleted
  | taskCancelled
  | sequence (e : SequenceEvent)
deriving Repr, DecidableEq

/-- `App` from `src/app/mod.rs`, restricted to the state the verified handlers
read or write.  `running_task_handle : Option<JoinHandle<()>>` is embedded as
`Option Unit` (present or absent); the collaborator client, timing, layout
cache, hover cache, output channel and dialog rectangle are omitted.  The
rename text box is its current string value. -/
structure App where
  tasks : List MiseTask
  selectedTask : Nat
  scrollOffset : Nat
  state : AppState
  taskOutput : List String
  shouldQuit : Bool
  sequenceState : SequenceState
  showOutputPane : Bool
  taskRunning : Bool
  runningTaskName : Option String
  runningTaskHandle : Option Unit
  currentVisibleHeight : Nat
  outputScrollOffset : Nat
  currentOutputVisibleHeight : Nat
  outputFollowMode : Bool
  pendingDeleteTask : Option String
  renameInput : Option String
  originalTaskName : Option String
deriving Repr, DecidableEq

namespace App

/-- `App::new` (the embedded fields). -/
def new : App :=
  { tasks := []
    selectedTask := 0
    scrollOffset := 0
    state := .SequenceBuilder
    taskOutput := []
    shouldQuit := false
    sequenceState := SequenceState.new 3
    showOutputPane := false
    taskRunning := false
    runningTaskName := none
    runningTaskHandle := none
    currentVisibleHeight := 0
    outputScrollOffset := 0
    currentOutputVisibleHeight := 0
    outputFollowMode := true
    pendingDeleteTask := none
    renameInput := none
    originalTaskName := none }

/-- `App::ensure_selected_task_visible` from `src/app/mod.rs`. -/
def ensureSelectedTaskVisible (a : App) (visibleHeight : Nat) : App :=
  if a.tasks.isEmpty || visibleHeight = 0 then a
  else if a.selectedTask < a.scrollOffset then
    { a with scrollOffset := a.selectedTask }
  else if a.selectedTask ≥ a.scrollOffset + visibleHeight then
    { a with scrollOffset := a.selectedTask - (visibleHeight - 1) }
  else a

/-- The `while self.task_output.len() > 100` loop of the `TaskOutput` arm of
`App::handle_event`: pop the oldest line and pull the scroll offset along
until at most 100 lines remain. -/
def trimOutput : List String → Nat → List String × Nat
  | [], scroll => ([], scroll)
  | line :: rest, scroll =>
    if (line :: rest).length > 100 then
      trimOutput rest (if scroll > 0 then scroll - 1 else scroll)
    else
      (line :: rest, scroll)

/-- The `TaskOutput` arm of `App::handle_event` from
`src/app/event_handlers.rs`: push the line, trim to 100, then the follow-mode
auto-scroll. -/
def handleTaskOutput (a : App) (line : String) : App :=
  let t := trimOutput (a.taskOutput ++ [line]) a.outputScrollOffset
  let newScroll :=
    if a.showOutputPane && a.taskRunning && a.outputFollowMode
        && decide (0 < a.currentOutputVisibleHeight) then
      let visibleHeight := a.currentOutputVisibleHeight
      let totalLines := t.1.length
      if totalLines > visibleHeight then
        let maxScroll := totalLines - visibleHeight
        if t.2 ≥ maxScroll - 3 then maxScroll else t.2
      else t.2
    else t.2
  { a with taskOutput := t.1, outputScrollOffset := newScroll }

/-- The `TaskCompleted` arm of `App::handle_event`. -/
def handleTaskCompleted (a : App) : App :=
  { a with taskRunning := false, runningTaskName := none, runningTaskHandle := none }

/-- The `TaskCancelled` arm of `App::handle_event`: the guard
`task_running || running_task_handle.is_some()` protects every update,
including the push of the "Task cancelled by user" line. -/
def handleTaskCancelled (a : App) : App :=
  if a.taskRunning || a.runningTaskHandle.isSome then
    { a with
      taskRunning := false
      runningTaskName := none
      runningTaskHandle := none
      taskOutput := a.taskOutput ++ ["Task cancelled by user"] }
  else a

/-- `App::start_rename_task` from `src/app/mod.rs`. -/
def startRenameTask (a : App) : App :=
  match a.tasks.get? a.selectedTask with
  | some task =>
    { a with
      state := .Renaming task.name
      originalTaskName := some task.name
      renameInput := some task.name }
  | none => a

/-- `App::handle_key` from `src/app/event_handlers.rs`, restricted to the
character key `c` (the source arm matches `Char('c')` whatever the
modifiers).  In source order: a pending delete confirmation intercepts the
key (cancelling the delete), rename mode forwards it to the text box, then
the Ctrl+C arm fires when `task_running` (clear the flag first, and only when
a handle is present abort it, drop it and send `TaskCancelled`), and
otherwise the `SequenceBuilder` arm starts a rename.  Returns the new state
and the events sent on `event_tx`. -/
def handleKeyC (a : App) : App × List AppEvent :=
  if a.pendingDeleteTask.isSome then
    ({ a with pendingDeleteTask := none }, [])
  else
    match a.state with
    | .Renaming _ =>
      ({ a with renameInput := a.renameInput.map (fun v => v ++ "c") }, [])
    | _ =>
      if a.taskRunning then
        let a1 := { a with taskRunning := false }
        match a1.runningTaskHandle with
        | some _ => ({ a1 with runningTaskHandle := none }, [AppEvent.taskCancelled])
        | none => (a1, [])
      else
        match a.state with
        | .SequenceBuilder => (startRenameTask a, [])
        | _ => (a, [])

end App

/-- Behaviour of an external `mise run <task>` process: the lines it streams
(already prefixed as in `MiseClient::run_task`) and its exit code, or a
failure to spawn. -/
inductive TaskOutcome where
  | exits (output : List String) (code : Nat)
  | spawnFail (msg : String)

/-- One behaviour per task name. -/
def Env : Type := String → TaskOutcome

/-- `MiseClient::run_task` from `src/mise/client.rs` as a function of the
process outcome: on spawn failure it returns the error; otherwise it streams
the output, appends a final status message, and returns `Ok(())` whatever the
exit code (`status.code()` of an exited process is `Some(code)`). -/
def runTask (env : Env) (taskName : String) : List String × Except String Unit :=
  match env taskName with
  | .spawnFail msg => ([], .error msg)
  | .exits output code =>
    let finalMessage :=
      if code = 0 then
        "Task '" ++ taskName ++ "' completed successfully"
      else
        "Task '" ++ taskName ++ "' failed with exit code: Some(" ++ toString code ++ ")"
    (output ++ [finalMessage], .ok ())

/-- The closure `App::execute_tasks_for_step` spawns: run each task in order;
on `Err` push a failure line and stop.  Returns the names whose process was
spawned, the lines sent on the output channel, and `all_success`. -/
def runStepTasks (env : Env) : List String → List String × List String × Bool
  | [] => ([], [], true)
  | t :: rest =>
    let r := runTask env t
    match r.2 with
    | .ok _ =>
      let rst := runStepTasks env rest
      (t :: rst.1, r.1 ++ rst.2.1, rst.2.2)
    | .error e =>
      ([t], r.1 ++ ["Task '" ++ t ++ "' failed: " ++ e], false)

/-- `App::execute_tasks_for_step`: store the handle and spawn the runner.  The
runner's channel traffic is delivered in order: its output lines as
`TaskOutput` events, then `StepCompleted` or
`SequenceFailed("One or more tasks failed")`.  Returns
(new state, events delivered, task names spawned). -/
def executeTasksForStep (env : Env) (a : App) (tasks : List String) :
    App × List AppEvent × List String :=
  let r := runStepTasks env tasks
  let finalEvent :=
    if r.2.2 then AppEvent.sequence .stepCompleted
    else AppEvent.sequence (.sequenceFailed "One or more tasks failed")
  ({ a with runningTaskHandle := some () },
    r.2.1.map AppEvent.taskOutput ++ [finalEvent], r.1)

/-- `App::execute_current_step`: a step with no bound task synthesizes an
immediate `StepCompleted` without spawning anything. -/
def executeCurrentStep (env : Env) (a : App) : App × List AppEvent × List String :=
  match a.sequenceState.currentStep with
  | none => (a, [], [])
  | some currentStep =>
    let tasksForStep := a.sequenceState.getTasksForStep currentStep
    if tasksForStep.isEmpty then
      (a, [AppEvent.sequence .stepCompleted], [])
    else
      executeTasksForStep env a tasksForStep

/-- `App::start_sequence_execution`: a no-op while a run is in flight. -/
def startSequenceExecution (env : Env) (a : App) : App × List AppEvent × List String :=
  if a.sequenceState.isRunning then (a, [], [])
  else
    let a1 :=
      { a with
        sequenceState := a.sequenceState.startExecution
        taskOutput := []
        showOutputPane := true
        taskRunning := true }
    executeCurrentStep env a1

/-- `App::handle_sequence_event` from `src/app/sequence_management.rs`. -/
def handleSequenceEvent (env : Env) (a : App) :
    SequenceEvent → App × List AppEvent × List String
  | .toggleStep taskName step =>
    let currentEnabled := a.sequenceState.isTaskEnabledForStep taskName step
    ({ a with sequenceState := a.sequenceState.setTaskStep taskName step (!currentEnabled) },
      [], [])
  | .runSequence => startSequenceExecution env a
  | .clearSequence => ({ a with sequenceState := a.sequenceState.clearAll }, [], [])
  | .stepCompleted =>
    let r := a.sequenceState.advanceStep
    let a1 := { a with sequenceState := r.1 }
    if r.2 then executeCurrentStep env a1
    else (a1, [AppEvent.sequence .sequenceCompleted], [])
  | .sequenceCompleted =>
    ({ a with sequenceState := a.sequenceState.resetExecution, taskRunning := false },
      [], [])
  | .sequenceFailed error =>
    ({ a with
        taskOutput := a.taskOutput ++ ["Sequence failed: " ++ error]
        sequenceState := a.sequenceState.resetExecution
        taskRunning := false },
      [], [])

/-- `App::handle_event` over the embedded events. -/
def handleEvent (env : Env) (a : App) : AppEvent → App × List AppEvent × List String
  | .taskOutput line => (a.handleTaskOutput line, [], [])
  | .taskCompleted => (a.handleTaskCompleted, [], [])
  | .taskCancelled => (a.handleTaskCancelled, [], [])
  | .sequence e => handleSequenceEvent env a e

/-- The main loop of the application on the single FIFO event stream, run for
`fuel` events.  Accumulates the task names spawned and the trace of events
processed; returns (final state, spawned tasks, processed trace). -/
def runLoop (env : Env) :
    Nat → App → List AppEvent → List String → List AppEvent →
    App × List String × List AppEvent
  | 0, a, _, spawned, trace => (a, spawned, trace)
  | _ + 1, a, [], spawned, trace => (a, spawned, trace)
  | fuel + 1, a, e :: queue, spawned, trace =>
    let r := handleEvent env a e
    runLoop env fuel r.1 (queue ++ r.2.1) (spawned ++ r.2.2) (trace ++ [e])

/-- The loop condition of `MiseClient::find_unique_task_name`: some existing
task other than the one being renamed already holds `name`. -/
def nameConflicts (existingTasks : List MiseTask) (oldName name : String) : Bool :=
  existingTasks.any (fun task => task.name == name && !(task.name == oldName))

/-- The candidate `format!("{desired_name}-{counter}")`. -/
def suffixedName (desiredName : String) (counter : Nat) : String :=
  desiredName ++ "-" ++ toString counter

/-- The `while` loop of `MiseClient::find_unique_task_name`, with explicit
fuel.  Each pass that still conflicts moves to the next suffixed candidate. -/
def findUniqueTaskNameAux (desiredName : String) (existingTasks : List MiseTask)
    (oldName : String) : String → Nat → Nat → String
  | candidateName, _, 0 => candidateName
  | candidateName, counter, fuel + 1 =>
    if nameConflicts existingTasks oldName candidateName then
      findUniqueTaskNameAux desiredName existingTasks oldName
        (suffixedName desiredName counter) (counter + 1) fuel
    else
      candidateName

/-- `MiseClient::find_unique_task_name` from `src/mise/client.rs`.  The Rust
loop always terminates — at most `existing_tasks.len()` candidate names are
taken, so among the first `len + 1` suffixed candidates one is free — and
`existingTasks.length + 1` passes of fuel cover that bound. -/
def findUniqueTaskName (desiredName : String) (existingTasks : List MiseTask)
    (oldName : String) : String :=
  findUniqueTaskNameAux desiredName existingTasks oldName desiredName 1
    (existingTasks.length + 1)

/-- `MiseClient::rename_task_in_config`: the `[tasks]` table of mise.toml as
an association list from task name to its configuration value; remove the old
entry and insert its configuration under the new name. -/
def renameTaskInConfig (tasksTable : List (String × String)) (oldName newName : String) :
    Except String (List (String × String)) :=
  match tasksTable.find? (fun p => p.1 == oldName) with
  | some entry =>
    .ok (tasksTable.filter (fun p => !(p.1 == oldName)) ++ [(newName, entry.2)])
  | none => .error ("Task '" ++ oldName ++ "' not found in tasks section")

/-- `MiseClient::rename_task` restricted to the config-based path (the task's
source is a `.toml` file): validate (`new_name.trim().is_empty()` is embedded
as "every character is whitespace", its meaning), resolve the name conflict
against the listed tasks, and rewrite the tasks table.  Returns the updated
table and the stored final name. -/
def renameTask (existingTasks : List MiseTask) (tasksTable : List (String × String))
    (oldName newName : String) : Except String (List (String × String) × String) :=
  if newName.data.all (fun c => c.isWhitespace) then
    .error "New task name cannot be empty"
  else if oldName == newName then .ok (tasksTable, newName)
  else
    let finalNewName := findUniqueTaskName newName existingTasks oldName
    match renameTaskInConfig tasksTable oldName finalNewName with
    | .ok table => .ok (table, finalNewName)
    | .error e => .error e

/-- Environment for the fail-fast scenario: task `a` exits with code 1, every
other task exits cleanly; no process streams extra output. -/
def failFastEnv : Env :=
  fun name => if name = "a" then .exits [] 1 else .exits [] 0

/-- Application with tasks `a`, `b`, `c` bound to steps 0, 1, 2. -/
def failFastApp : App :=
  { App.new with
    sequenceState :=
      (((SequenceState.new 3).setTaskStep "a" 0 true).setTaskStep "b" 1
          true).setTaskStep "c" 2 true }

/-- Application with task `t0` bound to step 0 and `t2` bound to step 2;
step 1 is left empty. -/
def twoStepApp (t0 t2 : String) : App :=
  { App.new with
    sequenceState :=
      ((SequenceState.new 3).setTaskStep t0 0 true).setTaskStep t2 2 true }

/-! ## Helper lemmas about step vectors and association lists -/

theorem stepSlot_set_self (v : List Bool) (i : Nat) (b : Bool) :
    SequenceState.stepSlot (v.set i b) i = (decide (i < v.length) && b) := by
  simp only [SequenceState.stepSlot, List.getD_eq_getElem?_getD, List.getElem?_set,
    List.length_set, if_pos rfl]
  by_cases h : i < v.length <;> simp [h]

theorem stepSlot_set_ne (v : List Bool) (i j : Nat) (b : Bool) (h : i ≠ j) :
    SequenceState.stepSlot (v.set i b) j = SequenceState.stepSlot v j := by
  simp [SequenceState.stepSlot, List.getD_eq_getElem?_getD, List.getElem?_set, h]

theorem find?_map_keyFixed (u : String × List Bool → String × List Bool)
    (hu : ∀ p, (u p).1 = p.1) (l : List (String × List Bool)) (name : String) :
    (l.map u).find? (fun p => p.1 == name) =
      (l.find? (fun p => p.1 == name)).map u := by
  induction l with
  | nil => rfl
  | cons p l ih =>
    have h1 : ((u p).1 == name) = (p.1 == name) := by rw [hu p]
    cases hb : (p.1 == name) with
    | false => simp [List.find?_cons, h1, hb, ih]
    | true => simp [List.find?_cons, h1, hb]

theorem length_filterMap_ifP (q : String × List Bool → Bool)
    (l : List (String × List Bool)) :
    (l.filterMap (fun p => if q p then some p.1 else none)).length = l.countP q := by
  induction l with
  | nil => rfl
  | cons p l ih => by_cases h : q p <;> simp [List.filterMap_cons, List.countP_cons, h, ih]

/-! ## Output buffer lemmas -/

theorem trimOutput_fst (out : List String) (scroll : Nat) :
    (App.trimOutput out scroll).1 = out.drop (out.length - 100) := by
  induction out generalizing scroll with
  | nil => simp [App.trimOutput]
  | cons line rest ih =>
    by_cases h : (line :: rest).length > 100
    · simp only [App.trimOutput, if_pos h, ih]
      have h1 : (line :: rest).length - 100 = (rest.length - 100) + 1 := by
        simp only [List.length_cons] at h ⊢; omega
      rw [h1, List.drop_succ_cons]
    · simp only [App.trimOutput, if_neg h]
      have h1 : (line :: rest).length - 100 = 0 := by
        simp only [List.length_cons] at h ⊢; omega
      rw [h1, List.drop_zero]

theorem handleTaskOutput_taskOutput (a : App) (line : String) :
    (a.handleTaskOutput line).taskOutput =
      (a.taskOutput ++ [line]).drop ((a.taskOutput.length + 1) - 100) := by
  simp [App.handleTaskOutput, trimOutput_fst]

theorem handleTaskOutput_length_le (a : App) (line : String) :
    (a.handleTaskOutput line).taskOutput.length ≤ 100 := by
  rw [handleTaskOutput_taskOutput]
  simp only [List.length_drop, List.length_append, List.length_cons, List.length_nil]
  omega

theorem foldl_handleTaskOutput (lines : List String) (a : App)
    (h : a.taskOutput.length ≤ 100) :
    (lines.foldl App.handleTaskOutput a).taskOutput =
      (a.taskOutput ++ lines).drop ((a.taskOutput.length + lines.length) - 100) := by
  induction lines generalizing a with
  | nil =>
    simp only [List.foldl_nil, List.length_nil, List.append_nil]
    have h0 : a.taskOutput.length + 0 - 100 = 0 := by omega
    rw [h0, List.drop_zero]
  | cons l ls ih =>
    rw [List.foldl_cons, ih _ (handleTaskOutput_length_le a l),
      handleTaskOutput_taskOutput]
    have hk : (a.taskOutput.length + 1) - 100 ≤ (a.taskOutput ++ [l]).length := by
      simp; omega
    rw [← List.drop_append_of_le_length hk, List.drop_drop]
    have hlist : (a.taskOutput ++ [l]) ++ ls = a.taskOutput ++ (l :: ls) := by simp
    have harith :
        (a.taskOutput.length + 1 - 100) +
            (((a.taskOutput ++ [l]).drop (a.taskOutput.length + 1 - 100)).length +
              ls.length - 100) =
          a.taskOutput.length + (l :: ls).length - 100 := by
      simp only [List.length_drop, List.length_append, List.length_cons,
        List.length_nil]
      omega
    rw [hlist, harith]

/-! ## Claim theorems -/

/-- C4: for every sequence of `TaskOutput` events, after pushing 150 lines
into the output buffer of capacity 100 the buffer holds exactly the last 100
pushed lines in their original relative order, and handling a `TaskOutput`
event never leaves the buffer with more than 100 lines. -/
theorem outputBuffer_capacity (a b : App) (lines : List String) (line : String)
    (hEmpty : a.taskOutput = []) (hLen : lines.length = 150) :
    (lines.foldl App.handleTaskOutput a).taskOutput = lines.drop 50 ∧
      (b.handleTaskOutput line).taskOutput.length ≤ 100 := by
  constructor
  · rw [foldl_handleTaskOutput lines a (by rw [hEmpty]; simp), hEmpty, hLen]
    simp
  · exact handleTaskOutput_length_le b line

/-- Witness for C4 at a concrete run of 150 lines from a fresh application. -/
theorem outputBuffer_capacity_spot :
    ((List.replicate 150 "line").foldl App.handleTaskOutput App.new).taskOutput =
        (List.replicate 150 "line").drop 50 ∧
      (App.new.handleTaskOutput "x").taskOutput.length ≤ 100 :=
  outputBuffer_capacity App.new App.new (List.replicate 150 "line") "x" rfl rfl

/-- C5: for a nonempty task list, positive visible height and an in-range
selection, `ensure_selected_task_visible` leaves the selection inside the
viewport window whatever the prior scroll offset. -/
theorem ensureSelectedTaskVisible_bounds (a : App) (visibleHeight : Nat)
    (hlen : 0 < a.tasks.length) (hvh : 0 < visibleHeight)
    (hsel : a.selectedTask < a.tasks.length) :
    (a.ensureSelectedTaskVisible visibleHeight).scrollOffset ≤ a.selectedTask ∧
      a.selectedTask <
        (a.ensureSelectedTaskVisible visibleHeight).scrollOffset + visibleHeight := by
  have h0 : a.tasks.isEmpty = false := by
    cases htasks : a.tasks
    · rw [htasks] at hlen; simp at hlen
    · rfl
  unfold App.ensureSelectedTaskVisible
  rw [h0]
  split_ifs with h1 h2 h3 <;> simp_all <;> omega

/-- Witness for C5: three tasks, viewport of height 1, selection 2, stale
scroll offset 0. -/
theorem ensureSelectedTaskVisible_bounds_spot :
    ({ App.new with
        tasks := [⟨"a", "s"⟩, ⟨"b", "s"⟩, ⟨"c", "s"⟩]
        selectedTask := 2 }.ensureSelectedTaskVisible 1).scrollOffset ≤ 2 ∧
      2 < ({ App.new with
        tasks := [⟨"a", "s"⟩, ⟨"b", "s"⟩, ⟨"c", "s"⟩]
        selectedTask := 2 }.ensureSelectedTaskVisible 1).scrollOffset + 1 :=
  ensureSelectedTaskVisible_bounds _ 1 (by decide) (by decide) (by decide)

/-- C9: `set_task_step` with a step index at or past `num_steps` leaves the
state completely unchanged. -/
theorem setTaskStep_out_of_range (s : SequenceState) (taskName : String)
    (step : Nat) (enabled : Bool) (h : s.numSteps ≤ step) :
    s.setTaskStep taskName step enabled = s := by
  unfold SequenceState.setTaskStep
  rw [if_neg (by omega)]

/-- Witness for C9, mirroring the `test_set_task_step_bounds` unit test:
a two-step state and step index 5. -/
theorem setTaskStep_out_of_range_spot :
    (SequenceState.new 2).setTaskStep "build" 5 true = SequenceState.new 2 :=
  setTaskStep_out_of_range (SequenceState.new 2) "build" 5 true (by decide)

/-- C10: handling `RunSequence` while a sequence run is already in flight
leaves the application state unchanged, delivers no event and spawns no
task. -/
theorem runSequence_noop_while_running (env : Env) (a : App)
    (h : a.sequenceState.isRunning = true) :
    handleSequenceEvent env a .runSequence = (a, [], []) := by
  simp [handleSequenceEvent, startSequenceExecution, h]

/-- Witness for C10 on a freshly started sequence state. -/
theorem runSequence_noop_while_running_spot :
    handleSequenceEvent (fun _ => .exits [] 0)
        { App.new with sequenceState := (SequenceState.new 3).startExecution }
        .runSequence =
      ({ App.new with sequenceState := (SequenceState.new 3).startExecution },
        [], []) :=
  runSequence_noop_while_running _ _ rfl

/-- C3: handling Ctrl+C with a run in flight and a handle present aborts and
drops the handle, clears the running flag and sends `TaskCancelled` — but
because the Ctrl+C arm clears `task_running` and takes the handle before the
event is sent, the `TaskCancelled` arm's guard is already false when the
event is processed, so processing it changes nothing and no
"cancelled by user" line is ever appended.  This evaluation at the failing
input exhibits the divergence from the claim (and from the spec sentence the
claim quotes). -/
theorem ctrlC_no_cancellation_line :
    (App.handleKeyC
        { App.new with
          taskRunning := true
          runningTaskName := some "build"
          runningTaskHandle := some () }).2 = [AppEvent.taskCancelled] ∧
      (App.handleKeyC
        { App.new with
          taskRunning := true
          runningTaskName := some "build"
          runningTaskHandle := some () }).1.taskRunning = false ∧
      (App.handleKeyC
        { App.new with
          taskRunning := true
          runningTaskName := some "build"
          runningTaskHandle := some () }).1.runningTaskHandle = none ∧
      App.handleTaskCancelled
          (App.handleKeyC
            { App.new with
              taskRunning := true
              runningTaskName := some "build"
              runningTaskHandle := some () }).1 =
        (App.handleKeyC
          { App.new with
            taskRunning := true
            runningTaskName := some "build"
            runningTaskHandle := some () }).1 ∧
      (App.handleTaskCancelled
          (App.handleKeyC
            { App.new with
              taskRunning := true
              runningTaskName := some "build"
              runningTaskHandle := some () }).1).taskOutput = [] :=
  ⟨rfl, rfl, rfl, rfl, rfl⟩

/-- C8: with no pending delete and not in rename mode, a Ctrl+C with no
active handle sends no event, appends nothing to the output and leaves the
handle absent; and once a cancellation has been processed (running flag
false, handle gone), a late `TaskCancelled` changes nothing — in particular
no duplicate cancellation line — and a late `TaskCompleted` neither
resurrects the running flag nor touches the output. -/
theorem cancel_idempotent (a b : App) (hPending : a.pendingDeleteTask = none)
    (hNotRenaming : ∀ t, a.state ≠ .Renaming t)
    (hNoHandle : a.runningTaskHandle = none)
    (hbRun : b.taskRunning = false) (hbHandle : b.runningTaskHandle = none) :
    a.handleKeyC.2 = [] ∧
      a.handleKeyC.1.taskOutput = a.taskOutput ∧
      a.handleKeyC.1.runningTaskHandle = none ∧
      b.handleTaskCancelled = b ∧
      b.handleTaskCompleted.taskRunning = false ∧
      b.handleTaskCompleted.taskOutput = b.taskOutput := by
  have hb : b.handleTaskCancelled = b := by
    simp [App.handleTaskCancelled, hbRun, hbHandle]
  have hkey : a.handleKeyC.2 = [] ∧ a.handleKeyC.1.taskOutput = a.taskOutput ∧
      a.handleKeyC.1.runningTaskHandle = none := by
    cases hstate : a.state with
    | Renaming t => exact absurd hstate (hNotRenaming t)
    | SequenceBuilder =>
      by_cases hrun : a.taskRunning
      · simp [App.handleKeyC, hPending, hstate, hrun, hNoHandle]
      · cases hget : a.tasks[a.selectedTask]? with
        | none =>
          simp [App.handleKeyC, App.startRenameTask, hPending, hstate, hrun,
            hNoHandle, hget]
        | some task =>
          simp [App.handleKeyC, App.startRenameTask, hPending, hstate, hrun,
            hNoHandle, hget]
    | Detail t =>
      by_cases hrun : a.taskRunning
      · simp [App.handleKeyC, hPending, hstate, hrun, hNoHandle]
      · simp [App.handleKeyC, hPending, hstate, hrun, hNoHandle]
    | Running t =>
      by_cases hrun : a.taskRunning
      · simp [App.handleKeyC, hPending, hstate, hrun, hNoHandle]
      · simp [App.handleKeyC, hPending, hstate, hrun, hNoHandle]
  exact ⟨hkey.1, hkey.2.1, hkey.2.2, hb, rfl, rfl⟩

/-- Witness for C8: a fresh application (no handle) for the cancel side and a
post-cancellation state for the late-signal side. -/
theorem cancel_idempotent_spot :
    App.new.handleKeyC.2 = [] ∧
      App.new.handleKeyC.1.taskOutput = App.new.taskOutput ∧
      App.new.handleKeyC.1.runningTaskHandle = none ∧
      App.new.handleTaskCancelled = App.new ∧
      App.new.handleTaskCompleted.taskRunning = false ∧
      App.new.handleTaskCompleted.taskOutput = App.new.taskOutput :=
  cancel_idempotent App.new App.new rfl (fun _ h => nomatch h) rfl rfl rfl

/-- C1: evaluation of the orchestrator at the failing input.  With tasks
`a`, `b`, `c` bound to steps 0, 1, 2 and the step-0 process exiting with
code 1, `run_task` still returns `Ok(())` (it only reports the exit code in
the output line), so the step runner finds `all_success = true`, emits
`StepCompleted`, and steps 1 and 2 are executed; the run ends with
`SequenceCompleted` and no `SequenceFailed` event ever fires.  This
contradicts the claimed fail-fast behaviour. -/
theorem failFast_violation_eval :
    (runLoop failFastEnv 20 failFastApp [.sequence .runSequence] [] []).2.1 =
        ["a", "b", "c"] ∧
      (runLoop failFastEnv 20 failFastApp [.sequence .runSequence] [] []).2.2 =
        [.sequence .runSequence,
          .taskOutput "Task 'a' failed with exit code: Some(1)",
          .sequence .stepCompleted,
          .taskOutput "Task 'b' completed successfully",
          .sequence .stepCompleted,
          .taskOutput "Task 'c' completed successfully",
          .sequence .stepCompleted,
          .sequence .sequenceCompleted] ∧
      (runLoop failFastEnv 20 failFastApp
            [.sequence .runSequence] [] []).1.sequenceState.isRunning = false :=
  ⟨rfl, rfl, rfl⟩

/-- C6 counterexample: in the claimed scenario (tasks on steps 0 and 2, both
succeeding) the run does terminate, but processing the final
`SequenceCompleted` event calls `reset_execution`, which fills the completion
flags with `false`; the final state does not have all three flags true. -/
theorem seqProgress_flags_cleared :
    (runLoop (fun _ => .exits [] 0) 10 (twoStepApp "build" "deploy")
          [.sequence .runSequence] [] []).1.sequenceState.completedSteps =
        [false, false, false] ∧
      (runLoop (fun _ => .exits [] 0) 10 (twoStepApp "build" "deploy")
            [.sequence .runSequence] [] []).1.sequenceState.completedSteps ≠
        [true, true, true] :=
  ⟨rfl, by decide⟩

/-- C6 (amended): for any two distinct task names bound to steps 0 and 2 with
step 1 empty and both processes exiting cleanly, the run executes exactly the
two bound tasks in order, synthesizes an immediate `StepCompleted` for the
empty step 1 without spawning anything (the trace shows two consecutive
`StepCompleted` with no intervening spawn), and terminates with
`is_running = false` and `current_step = None`; all three completion flags
are true the moment the final `StepCompleted` has been processed, and the
subsequent `SequenceCompleted` handling resets them all to false. -/
theorem seqProgress_amended (t0 t2 : String) (env : Env) (hne : t0 ≠ t2)
    (h0 : env t0 = .exits [] 0) (h2 : env t2 = .exits [] 0) :
    (runLoop env 10 (twoStepApp t0 t2) [.sequence .runSequence] [] []).2.1 =
        [t0, t2] ∧
      (runLoop env 10 (twoStepApp t0 t2) [.sequence .runSequence] [] []).2.2 =
        [.sequence .runSequence,
          .taskOutput ("Task '" ++ t0 ++ "' completed successfully"),
          .sequence .stepCompleted,
          .sequence .stepCompleted,
          .taskOutput ("Task '" ++ t2 ++ "' completed successfully"),
          .sequence .stepCompleted,
          .sequence .sequenceCompleted] ∧
      (runLoop env 10 (twoStepApp t0 t2)
            [.sequence .runSequence] [] []).1.sequenceState.isRunning = false ∧
      (runLoop env 10 (twoStepApp t0 t2)
            [.sequence .runSequence] [] []).1.sequenceState.currentStep = none ∧
      (runLoop env 10 (twoStepApp t0 t2)
            [.sequence .runSequence] [] []).1.sequenceState.completedSteps =
        [false, false, false] ∧
      (runLoop env 6 (twoStepApp t0 t2)
            [.sequence .runSequence] [] []).1.sequenceState.completedSteps =
        [true, true, true] := by
  have hbeq : (t0 == t2) = false := beq_eq_false_iff_ne.mpr hne
  refine ⟨?_, ?_, ?_, ?_, ?_, ?_⟩ <;>
    simp [twoStepApp, App.new, runLoop, handleEvent, handleSequenceEvent,
      startSequenceExecution, executeCurrentStep, executeTasksForStep,
      runStepTasks, runTask, App.handleTaskOutput, App.trimOutput,
      App.handleTaskCompleted, App.handleTaskCancelled,
      SequenceState.new, SequenceState.setTaskStep, SequenceState.clearStep,
      SequenceState.writeEntry, SequenceState.startExecution,
      SequenceState.advanceStep, SequenceState.resetExecution,
      SequenceState.getTasksForStep, SequenceState.stepSlot, h0, h2, hbeq]

/-- Witness for C6 (amended) at the names `build` and `deploy` under an
environment where every process exits cleanly. -/
theorem seqProgress_amended_spot :
    (runLoop (fun _ => .exits [] 0) 10 (twoStepApp "build" "deploy")
          [.sequence .runSequence] [] []).2.1 = ["build", "deploy"] :=
  (seqProgress_amended "build" "deploy" (fun _ => .exits [] 0)
    (by decide) rfl rfl).1

/-! ## Step-exclusivity lemmas -/

theorem stepSlot_set_false_self (v : List Bool) (S : Nat) :
    SequenceState.stepSlot (v.set S false) S = false := by
  rw [stepSlot_set_self]; simp

theorem stepSlot_replicate_false (n t : Nat) :
    SequenceState.stepSlot (List.replicate n false) t = false := by
  by_cases h : t < n <;>
    simp [SequenceState.stepSlot, List.getD_eq_getElem?_getD,
      List.getElem?_replicate, h]

theorem stepSlot_fresh_entry_ne (n S t : Nat) (b : Bool) (h : S ≠ t) :
    SequenceState.stepSlot ((List.replicate n false).set S b) t = false := by
  rw [stepSlot_set_ne _ _ _ _ h, stepSlot_replicate_false]

theorem countP_slot_clearStep_self (l : List (String × List Bool)) (S : Nat) :
    (SequenceState.clearStep l S).countP
      (fun p => SequenceState.stepSlot p.2 S) = 0 := by
  rw [SequenceState.clearStep, List.countP_map, List.countP_eq_zero]
  intro q _
  simp [Function.comp, stepSlot_set_false_self]

theorem countP_slot_clearStep_ne (l : List (String × List Bool)) (S t : Nat)
    (h : S ≠ t) :
    (SequenceState.clearStep l S).countP (fun p => SequenceState.stepSlot p.2 t) =
      l.countP (fun p => SequenceState.stepSlot p.2 t) := by
  rw [SequenceState.clearStep, List.countP_map]
  apply List.countP_congr
  intro q _
  simp [Function.comp, stepSlot_set_ne _ _ _ _ h]

theorem countP_slot_updMap_ne (l : List (String × List Bool)) (name : String)
    (S t : Nat) (b : Bool) (h : S ≠ t) :
    (l.map (fun p => if p.1 == name then (p.1, p.2.set S b) else p)).countP
        (fun p => SequenceState.stepSlot p.2 t) =
      l.countP (fun p => SequenceState.stepSlot p.2 t) := by
  rw [List.countP_map]
  apply List.countP_congr
  intro q _
  by_cases hk : q.1 == name <;> simp [Function.comp, hk, stepSlot_set_ne _ _ _ _ h]

theorem keys_clearStep (l : List (String × List Bool)) (S : Nat) :
    (SequenceState.clearStep l S).map Prod.fst = l.map Prod.fst := by
  simp [SequenceState.clearStep]

theorem keys_updMap (l : List (String × List Bool)) (name : String) (S : Nat)
    (b : Bool) :
    (l.map (fun p => if p.1 == name then (p.1, p.2.set S b) else p)).map
        Prod.fst = l.map Prod.fst := by
  rw [List.map_map]
  apply List.map_congr_left
  intro p _
  by_cases h : p.1 = name <;> simp [h]

theorem find?_clearStep (l : List (String × List Bool)) (S : Nat) (C : String) :
    (SequenceState.clearStep l S).find? (fun p => p.1 == C) =
      (l.find? (fun p => p.1 == C)).map (fun p => (p.1, p.2.set S false)) :=
  find?_map_keyFixed (fun p => (p.1, p.2.set S false)) (fun _ => rfl) l C

theorem find?_updMap (l : List (String × List Bool)) (name : String) (S : Nat)
    (b : Bool) (C : String) :
    (l.map (fun p => if p.1 == name then (p.1, p.2.set S b) else p)).find?
        (fun p => p.1 == C) =
      (l.find? (fun p => p.1 == C)).map
        (fun p => if p.1 == name then (p.1, p.2.set S b) else p) :=
  find?_map_keyFixed _ (fun p => by by_cases h : p.1 == name <;> simp [h]) l C

theorem lookupSlot_clearStep_self (l : List (String × List Bool)) (S : Nat)
    (C : String) :
    SequenceState.lookupSlot (SequenceState.clearStep l S) C S = false := by
  unfold SequenceState.lookupSlot
  rw [find?_clearStep]
  cases l.find? (fun p => p.1 == C) <;> simp [stepSlot_set_false_self]

theorem lookupSlot_updMap_other (l : List (String × List Bool)) (name : String)
    (S : Nat) (b : Bool) (C : String) (hC : C ≠ name) (t : Nat) :
    SequenceState.lookupSlot
        (l.map (fun p => if p.1 == name then (p.1, p.2.set S b) else p)) C t =
      SequenceState.lookupSlot l C t := by
  unfold SequenceState.lookupSlot
  rw [find?_updMap]
  cases hp : l.find? (fun p => p.1 == C) with
  | none => rfl
  | some p =>
    have hbkey := List.find?_some hp
    have hpne : p.1 ≠ name := by
      have hpc : p.1 = C := eq_of_beq hbkey
      rw [hpc]; exact hC
    simp [hpne]

theorem lookupSlot_append_other (l : List (String × List Bool))
    (x : String × List Bool) (C : String) (hx : (x.1 == C) = false) (t : Nat) :
    SequenceState.lookupSlot (l ++ [x]) C t = SequenceState.lookupSlot l C t := by
  unfold SequenceState.lookupSlot
  rw [List.find?_append]
  cases hp : l.find? (fun p => p.1 == C) with
  | none => simp [List.find?_cons, hx]
  | some p => rfl

theorem lookupSlot_writeEntry_other (l : List (String × List Bool))
    (name : String) (n S : Nat) (b : Bool) (C : String) (hC : C ≠ name) (t : Nat) :
    SequenceState.lookupSlot (SequenceState.writeEntry l name n S b) C t =
      SequenceState.lookupSlot l C t := by
  unfold SequenceState.writeEntry
  by_cases hany : l.any (fun p => p.1 == name)
  · rw [if_pos hany]
    exact lookupSlot_updMap_other l name S b C hC t
  · rw [if_neg hany]
    exact lookupSlot_append_other l _ C (beq_eq_false_iff_ne.mpr (Ne.symm hC)) t

theorem lookupSlot_writeEntry_self (l : List (String × List Bool))
    (name : String) (n S : Nat) (b : Bool)
    (hlen : ∀ p ∈ l, p.2.length = n) (hS : S < n) :
    SequenceState.lookupSlot (SequenceState.writeEntry l name n S b) name S = b := by
  unfold SequenceState.writeEntry
  by_cases hany : l.any (fun p => p.1 == name)
  · rw [if_pos hany]
    unfold SequenceState.lookupSlot
    rw [find?_updMap]
    have hsome : (l.find? (fun p => p.1 == name)).isSome := by
      rw [List.find?_isSome]
      rcases List.any_eq_true.mp hany with ⟨p, hp, hpred⟩
      exact ⟨p, hp, hpred⟩
    obtain ⟨p, hp⟩ := Option.isSome_iff_exists.mp hsome
    have hkey := List.find?_some hp
    have hkey2 : (p.1 == name) = true := hkey
    have hplen : p.2.length = n := hlen p (List.mem_of_find?_eq_some hp)
    rw [hp]
    show SequenceState.stepSlot
        (if p.1 == name then (p.1, p.2.set S b) else p).2 S = b
    rw [if_pos hkey2, stepSlot_set_self, hplen]
    simp [hS]
  · rw [if_neg hany]
    unfold SequenceState.lookupSlot
    rw [List.find?_append]
    have hanyf : l.any (fun p => p.1 == name) = false := by
      cases hv : l.any (fun p => p.1 == name)
      · rfl
      · exact absurd hv hany
    have hnone : l.find? (fun p => p.1 == name) = none := by
      rw [List.find?_eq_none]
      intro p hp hpred
      rw [List.any_eq_false] at hanyf
      exact hanyf p hp hpred
    rw [hnone]
    simp only [Option.none_or, List.find?_cons, BEq.refl, Option.some.injEq]
    rw [stepSlot_set_self]
    simp [hS]

theorem countP_keys (l : List (String × List Bool)) (name : String) :
    l.countP (fun p => p.1 == name) = (l.map Prod.fst).count name := by
  rw [List.count_eq_countP, List.countP_map]
  rfl

theorem countP_slot_writeEntry_true_le (l : List (String × List Bool))
    (name : String) (n S : Nat) (hnd : (l.map Prod.fst).Nodup)
    (h0 : l.countP (fun p => SequenceState.stepSlot p.2 S) = 0) :
    (SequenceState.writeEntry l name n S true).countP
      (fun p => SequenceState.stepSlot p.2 S) ≤ 1 := by
  unfold SequenceState.writeEntry
  by_cases hany : l.any (fun p => p.1 == name)
  · rw [if_pos hany, List.countP_map]
    have hall := List.countP_eq_zero.mp h0
    have hmono :
        l.countP
            ((fun p => SequenceState.stepSlot p.2 S) ∘
              fun p => if p.1 == name then (p.1, p.2.set S true) else p) ≤
          l.countP (fun p => p.1 == name) := by
      apply List.countP_mono_left
      intro q hq hs
      by_cases hk : (q.1 == name) = true
      · exact hk
      · exfalso
        simp only [Function.comp] at hs
        rw [if_neg hk] at hs
        exact hall q hq hs
    calc l.countP
          ((fun p => SequenceState.stepSlot p.2 S) ∘
            fun p => if p.1 == name then (p.1, p.2.set S true) else p)
        ≤ l.countP (fun p => p.1 == name) := hmono
      _ = (l.map Prod.fst).count name := countP_keys l name
      _ ≤ 1 := List.nodup_iff_count_le_one.mp hnd name
  · rw [if_neg hany, List.countP_append, h0]
    by_cases hx :
        SequenceState.stepSlot ((List.replicate n false).set S true) S = true <;>
      simp [List.countP_cons, hx]

theorem countP_slot_writeEntry_false_le (l : List (String × List Bool))
    (name : String) (n S : Nat)
    (h1 : l.countP (fun p => SequenceState.stepSlot p.2 S) ≤ 1) :
    (SequenceState.writeEntry l name n S false).countP
      (fun p => SequenceState.stepSlot p.2 S) ≤ 1 := by
  unfold SequenceState.writeEntry
  by_cases hany : l.any (fun p => p.1 == name)
  · rw [if_pos hany, List.countP_map]
    refine le_trans (List.countP_mono_left ?_) h1
    intro q hq hs
    simp only [Function.comp] at hs
    by_cases hk : (q.1 == name) = true
    · rw [if_pos hk] at hs
      rw [stepSlot_set_false_self] at hs
      exact absurd hs (by simp)
    · rw [if_neg hk] at hs
      exact hs
  · rw [if_neg hany, List.countP_append]
    have hx : SequenceState.stepSlot ((List.replicate n false).set S false) S =
        false := stepSlot_set_false_self _ _
    simpa [List.countP_cons, hx, stepSlot_replicate_false] using h1

theorem countP_slot_writeEntry_ne (l : List (String × List Bool))
    (name : String) (n S t : Nat) (b : Bool) (h : S ≠ t) :
    (SequenceState.writeEntry l name n S b).countP
        (fun p => SequenceState.stepSlot p.2 t) =
      l.countP (fun p => SequenceState.stepSlot p.2 t) := by
  unfold SequenceState.writeEntry
  by_cases hany : l.any (fun p => p.1 == name)
  · rw [if_pos hany]
    exact countP_slot_updMap_ne l name S t b h
  · rw [if_neg hany, List.countP_append]
    have hx : SequenceState.stepSlot ((List.replicate n false).set S b) t =
        false := stepSlot_fresh_entry_ne n S t b h
    simp [List.countP_cons, hx]

theorem setTaskStep_numSteps (s : SequenceState) (name : String) (S : Nat)
    (b : Bool) : (s.setTaskStep name S b).numSteps = s.numSteps := by
  unfold SequenceState.setTaskStep
  by_cases hS : S < s.numSteps
  · rw [if_pos hS]
  · rw [if_neg hS]

theorem stepExclusive_countP (s : SequenceState) :
    s.stepExclusive ↔
      ∀ t, s.taskSteps.countP (fun p => SequenceState.stepSlot p.2 t) ≤ 1 := by
  unfold SequenceState.stepExclusive SequenceState.getTasksForStep
  constructor
  · intro h t
    rw [← length_filterMap_ifP]
    exact h t
  · intro h t
    rw [length_filterMap_ifP]
    exact h t

theorem setTaskStep_preserves_stepExclusive (s : SequenceState)
    (hnd : (s.taskSteps.map Prod.fst).Nodup) (hex : s.stepExclusive)
    (name : String) (step : Nat) (b : Bool) :
    (s.setTaskStep name step b).stepExclusive := by
  have hex' := (stepExclusive_countP s).mp hex
  rw [stepExclusive_countP]
  intro t
  unfold SequenceState.setTaskStep
  by_cases hS : step < s.numSteps
  · rw [if_pos hS]
    show (SequenceState.writeEntry
        (if b = true then SequenceState.clearStep s.taskSteps step
          else s.taskSteps) name s.numSteps step b).countP
        (fun p => SequenceState.stepSlot p.2 t) ≤ 1
    cases b with
    | true =>
      rw [if_pos rfl]
      by_cases ht : step = t
      · subst ht
        exact countP_slot_writeEntry_true_le _ name _ step
          (by rw [keys_clearStep]; exact hnd)
          (countP_slot_clearStep_self s.taskSteps step)
      · rw [countP_slot_writeEntry_ne _ _ _ _ _ _ ht,
          countP_slot_clearStep_ne _ _ _ ht]
        exact hex' t
    | false =>
      rw [if_neg (by simp)]
      by_cases ht : step = t
      · subst ht
        exact countP_slot_writeEntry_false_le _ name _ step (hex' step)
      · rw [countP_slot_writeEntry_ne _ _ _ _ _ _ ht]
        exact hex' t
  · rw [if_neg hS]
    exact hex' t

theorem setTaskStep_preserves_WF (s : SequenceState) (name : String) (S : Nat)
    (b : Bool) (hwf : s.WF) : (s.setTaskStep name S b).WF := by
  obtain ⟨hnd, hlen⟩ := hwf
  unfold SequenceState.setTaskStep
  by_cases hS : S < s.numSteps
  · rw [if_pos hS]
    set base :=
      if b = true then SequenceState.clearStep s.taskSteps S else s.taskSteps
      with hbase
    have hbkeys : base.map Prod.fst = s.taskSteps.map Prod.fst := by
      rw [hbase]
      cases b
      · rw [if_neg (by simp)]
      · rw [if_pos rfl, keys_clearStep]
    have hblen : ∀ p ∈ base, p.2.length = s.numSteps := by
      intro p hp
      rw [hbase] at hp
      cases b with
      | true =>
        rw [if_pos rfl] at hp
        unfold SequenceState.clearStep at hp
        rcases List.mem_map.mp hp with ⟨q, hq, hqe⟩
        rw [← hqe]
        simp [hlen q hq]
      | false =>
        rw [if_neg (by simp)] at hp
        exact hlen p hp
    constructor
    · show ((SequenceState.writeEntry base name s.numSteps S b).map
        Prod.fst).Nodup
      unfold SequenceState.writeEntry
      by_cases hany : base.any (fun p => p.1 == name)
      · rw [if_pos hany, keys_updMap, hbkeys]
        exact hnd
      · rw [if_neg hany, List.map_append]
        rw [List.nodup_append]
        refine ⟨by rw [hbkeys]; exact hnd, List.nodup_singleton _, ?_⟩
        intro k hk hk1
        have hkname : k = name := by simpa using hk1
        rcases List.mem_map.mp hk with ⟨p, hp, hpk⟩
        have hanyf : base.any (fun p => p.1 == name) = false := by
          cases hv : base.any (fun p => p.1 == name)
          · rfl
          · exact absurd hv hany
        rw [List.any_eq_false] at hanyf
        refine hanyf p hp ?_
        rw [hpk, hkname]
        simp
    · intro p hp
      show p.2.length = s.numSteps
      unfold SequenceState.writeEntry at hp
      by_cases hany : base.any (fun p => p.1 == name)
      · rw [if_pos hany] at hp
        rcases List.mem_map.mp hp with ⟨q, hq, hqe⟩
        by_cases hk : (q.1 == name) = true
        · rw [if_pos hk] at hqe
          rw [← hqe]
          simp [hblen q hq]
        · rw [if_neg hk] at hqe
          rw [← hqe]
          exact hblen q hq
      · rw [if_neg hany] at hp
        rcases List.mem_append.mp hp with hp1 | hp2
        · exact hblen p hp1
        · have : p = (name, (List.replicate s.numSteps false).set S b) := by
            simpa using hp2
          rw [this]
          simp
  · rw [if_neg hS]
    exact ⟨hnd, hlen⟩

theorem stepExclusive_of_taskSteps_eq (s1 s2 : SequenceState)
    (h : s1.taskSteps = s2.taskSteps) (hex : s2.stepExclusive) :
    s1.stepExclusive := by
  intro t
  have heq : s1.getTasksForStep t = s2.getTasksForStep t := by
    unfold SequenceState.getTasksForStep
    rw [h]
  rw [heq]
  exact hex t

theorem advanceStep_taskSteps (s : SequenceState) :
    s.advanceStep.1.taskSteps = s.taskSteps := by
  unfold SequenceState.advanceStep
  split
  · dsimp only
    split <;> rfl
  · rfl

theorem stepSlot_map_false (v : List Bool) (t : Nat) :
    SequenceState.stepSlot (v.map (fun _ => false)) t = false := by
  unfold SequenceState.stepSlot
  rw [List.getD_eq_getElem?_getD, List.getElem?_map]
  cases h : v[t]? <;> simp

theorem clearAll_stepExclusive (s : SequenceState) : s.clearAll.stepExclusive := by
  rw [stepExclusive_countP]
  intro t
  show (s.taskSteps.map (fun p => (p.1, p.2.map (fun _ => false)))).countP
      (fun p => SequenceState.stepSlot p.2 t) ≤ 1
  rw [List.countP_map]
  rw [List.countP_eq_zero.mpr]
  · omega
  · intro q _
    simp [Function.comp, stepSlot_map_false, stepSlot_replicate_false]

theorem setTaskStep_isEnabled_self (s : SequenceState) (name : String)
    (S : Nat) (b : Bool) (hS : S < s.numSteps)
    (hlen : ∀ p ∈ s.taskSteps, p.2.length = s.numSteps) :
    (s.setTaskStep name S b).isTaskEnabledForStep name S = b := by
  unfold SequenceState.setTaskStep SequenceState.isTaskEnabledForStep
  rw [if_pos hS]
  show SequenceState.lookupSlot
      (SequenceState.writeEntry
        (if b = true then SequenceState.clearStep s.taskSteps S else s.taskSteps)
        name s.numSteps S b) name S = b
  cases b with
  | true =>
    rw [if_pos rfl]
    apply lookupSlot_writeEntry_self
    · intro p hp
      unfold SequenceState.clearStep at hp
      rcases List.mem_map.mp hp with ⟨q, hq, hqe⟩
      rw [← hqe]
      simp [hlen q hq]
    · exact hS
  | false =>
    rw [if_neg (by simp)]
    exact lookupSlot_writeEntry_self _ _ _ _ _ hlen hS

theorem setTaskStep_true_other_false (s : SequenceState) (name C : String)
    (S : Nat) (hC : C ≠ name) (hS : S < s.numSteps) :
    (s.setTaskStep name S true).isTaskEnabledForStep C S = false := by
  unfold SequenceState.setTaskStep SequenceState.isTaskEnabledForStep
  rw [if_pos hS]
  show SequenceState.lookupSlot
      (SequenceState.writeEntry
        (if (true : Bool) = true then SequenceState.clearStep s.taskSteps S
          else s.taskSteps)
        name s.numSteps S true) C S = false
  rw [if_pos rfl, lookupSlot_writeEntry_other _ _ _ _ _ _ hC]
  exact lookupSlot_clearStep_self _ _ _

theorem setTaskStep_false_other_preserved (s : SequenceState) (name C : String)
    (S t : Nat) (hC : C ≠ name) (hS : S < s.numSteps) :
    (s.setTaskStep name S false).isTaskEnabledForStep C t =
      s.isTaskEnabledForStep C t := by
  unfold SequenceState.setTaskStep SequenceState.isTaskEnabledForStep
  rw [if_pos hS]
  show SequenceState.lookupSlot
      (SequenceState.writeEntry
        (if (false : Bool) = true then SequenceState.clearStep s.taskSteps S
          else s.taskSteps)
        name s.numSteps S false) C t =
    SequenceState.lookupSlot s.taskSteps C t
  rw [if_neg (by simp)]
  exact lookupSlot_writeEntry_other _ _ _ _ _ _ hC _

/-- C2: enabling task `A` for step `S` and then task `B` for the same step
leaves `B` as the only task enabled for `S` (in particular `A` is disabled);
disabling `B` afterwards leaves step `S` with no enabled task at all; and
every operation of `SequenceState` preserves the invariant that each step has
at most one enabled task.  `WF` is the representation invariant the Rust
`HashMap<String, Vec<bool>>` state always satisfies (unique keys, vectors of
length `num_steps`). -/
theorem stepExclusivity (s : SequenceState) (A B : String) (S : Nat)
    (hwf : s.WF) (hS : S < s.numSteps) (hAB : A ≠ B) :
    ((s.setTaskStep A S true).setTaskStep B S true).isTaskEnabledForStep B S =
        true ∧
      ((s.setTaskStep A S true).setTaskStep B S true).isTaskEnabledForStep A S =
        false ∧
      (∀ C,
        ((s.setTaskStep A S true).setTaskStep B S true).isTaskEnabledForStep C S =
            true → C = B) ∧
      (∀ C,
        (((s.setTaskStep A S true).setTaskStep B S
              true).setTaskStep B S false).isTaskEnabledForStep C S = false) ∧
      (∀ name step b, s.stepExclusive → (s.setTaskStep name step b).stepExclusive) ∧
      (s.stepExclusive → s.clearAll.stepExclusive) ∧
      (s.stepExclusive → s.resetExecution.stepExclusive) ∧
      (s.stepExclusive → s.startExecution.stepExclusive) ∧
      (s.stepExclusive → s.advanceStep.1.stepExclusive) := by
  obtain ⟨hnd, hlen⟩ := hwf
  have hwf1 : (s.setTaskStep A S true).WF :=
    setTaskStep_preserves_WF s A S true ⟨hnd, hlen⟩
  have hwf2 : ((s.setTaskStep A S true).setTaskStep B S true).WF :=
    setTaskStep_preserves_WF _ B S true hwf1
  have hn1 : (s.setTaskStep A S true).numSteps = s.numSteps :=
    setTaskStep_numSteps s A S true
  have hn2 : ((s.setTaskStep A S true).setTaskStep B S true).numSteps =
      s.numSteps := by
    rw [setTaskStep_numSteps, hn1]
  have hS1 : S < (s.setTaskStep A S true).numSteps := by rw [hn1]; exact hS
  have hS2 : S < ((s.setTaskStep A S true).setTaskStep B S true).numSteps := by
    rw [hn2]; exact hS
  refine ⟨?_, ?_, ?_, ?_, ?_, ?_, ?_, ?_, ?_⟩
  · exact setTaskStep_isEnabled_self _ B S true hS1 hwf1.2
  · exact setTaskStep_true_other_false _ B A S hAB hS1
  · intro C hCen
    by_contra hCB
    rw [setTaskStep_true_other_false _ B C S hCB hS1] at hCen
    exact absurd hCen (by simp)
  · intro C
    by_cases hCB : C = B
    · subst hCB
      exact setTaskStep_isEnabled_self _ C S false hS2 hwf2.2
    · rw [setTaskStep_false_other_preserved _ B C S S hCB hS2]
      exact setTaskStep_true_other_false _ B C S hCB hS1
  · intro name step b hex
    exact setTaskStep_preserves_stepExclusive s hnd hex name step b
  · intro _
    exact clearAll_stepExclusive s
  · intro hex
    exact stepExclusive_of_taskSteps_eq _ s rfl hex
  · intro hex
    exact stepExclusive_of_taskSteps_eq _ s rfl hex
  · intro hex
    exact stepExclusive_of_taskSteps_eq _ s (advanceStep_taskSteps s) hex

/-- Witness for C2: a fresh three-step state, `A = "build"`, `B = "test"`,
step 0 — the scenario of the `test_one_task_per_step` unit test. -/
theorem stepExclusivity_spot :
    ((((SequenceState.new 3).setTaskStep "build" 0 true).setTaskStep "test" 0
          true).isTaskEnabledForStep "test" 0 = true) ∧
      ((((SequenceState.new 3).setTaskStep "build" 0 true).setTaskStep "test" 0
          true).isTaskEnabledForStep "build" 0 = false) ∧
      (∀ C,
        (((SequenceState.new 3).setTaskStep "build" 0 true).setTaskStep "test" 0
            true).isTaskEnabledForStep C 0 = true → C = "test") ∧
      (∀ C,
        ((((SequenceState.new 3).setTaskStep "build" 0 true).setTaskStep "test" 0
              true).setTaskStep "test" 0 false).isTaskEnabledForStep C 0 =
          false) ∧
      (∀ name step b,
        (SequenceState.new 3).stepExclusive →
          ((SequenceState.new 3).setTaskStep name step b).stepExclusive) ∧
      ((SequenceState.new 3).stepExclusive →
        (SequenceState.new 3).clearAll.stepExclusive) ∧
      ((SequenceState.new 3).stepExclusive →
        (SequenceState.new 3).resetExecution.stepExclusive) ∧
      ((SequenceState.new 3).stepExclusive →
        (SequenceState.new 3).startExecution.stepExclusive) ∧
      ((SequenceState.new 3).stepExclusive →
        (SequenceState.new 3).advanceStep.1.stepExclusive) :=
  stepExclusivity (SequenceState.new 3) "build" "test" 0
    ⟨List.nodup_nil, fun p hp => absurd hp (List.not_mem_nil p)⟩
    (by decide) (by decide)

/-! ## Rename lemmas -/

theorem findUniqueTaskNameAux_spec (desiredName : String)
    (existingTasks : List MiseTask) (oldName : String) (fuel : Nat) :
    ∀ base : Nat,
      (∃ k, base ≤ k ∧ k ≤ base + fuel ∧
        nameConflicts existingTasks oldName (suffixedName desiredName k) = false) →
      ∃ k, base ≤ k ∧
        nameConflicts existingTasks oldName (suffixedName desiredName k) = false ∧
        (∀ j, base ≤ j → j < k →
          nameConflicts existingTasks oldName (suffixedName desiredName j) = true) ∧
        findUniqueTaskNameAux desiredName existingTasks oldName
            (suffixedName desiredName base) (base + 1) fuel =
          suffixedName desiredName k := by
  induction fuel with
  | zero =>
    rintro base ⟨k, hk1, hk2, hk3⟩
    have hkb : k = base := by omega
    subst hkb
    exact ⟨k, le_refl _, hk3, fun j hj1 hj2 => absurd hj2 (by omega), rfl⟩
  | succ fuel ih =>
    rintro base ⟨k, hk1, hk2, hk3⟩
    by_cases hc :
        nameConflicts existingTasks oldName (suffixedName desiredName base) = true
    · have hkb : k ≠ base := by
        intro h
        rw [h] at hk3
        rw [hk3] at hc
        exact Bool.false_ne_true hc
      obtain ⟨k2, h1, h2, h3, h4⟩ :=
        ih (base + 1) ⟨k, by omega, by omega, hk3⟩
      refine ⟨k2, by omega, h2, ?_, ?_⟩
      · intro j hj1 hj2
        by_cases hjb : j = base
        · rw [hjb]
          exact hc
        · exact h3 j (by omega) hj2
      · simp only [findUniqueTaskNameAux]
        rw [if_pos hc]
        exact h4
    · have hcf :
          nameConflicts existingTasks oldName (suffixedName desiredName base) =
            false := by
        cases hv :
            nameConflicts existingTasks oldName (suffixedName desiredName base)
        · rfl
        · exact absurd hv hc
      refine ⟨base, le_refl _, hcf,
        fun j hj1 hj2 => absurd hj2 (by omega), ?_⟩
      simp only [findUniqueTaskNameAux]
      rw [if_neg hc]

theorem findUniqueTaskName_spec (desiredName : String)
    (existingTasks : List MiseTask) (oldName : String)
    (hconf : nameConflicts existingTasks oldName desiredName = true)
    (hfree : ∃ k, 1 ≤ k ∧ k ≤ existingTasks.length ∧
      nameConflicts existingTasks oldName (suffixedName desiredName k) = false) :
    ∃ k, 1 ≤ k ∧
      nameConflicts existingTasks oldName (suffixedName desiredName k) = false ∧
      (∀ j, 1 ≤ j → j < k →
        nameConflicts existingTasks oldName (suffixedName desiredName j) = true) ∧
      findUniqueTaskName desiredName existingTasks oldName =
        suffixedName desiredName k := by
  obtain ⟨k0, hk1, hk2, hk3⟩ := hfree
  obtain ⟨k, h1, h2, h3, h4⟩ :=
    findUniqueTaskNameAux_spec desiredName existingTasks oldName
      existingTasks.length 1 ⟨k0, by omega, by omega, hk3⟩
  refine ⟨k, h1, h2, h3, ?_⟩
  unfold findUniqueTaskName
  simp only [findUniqueTaskNameAux]
  rw [if_pos hconf]
  exact h4

/-- C7 counterexample: rename `test-1` to `test` while `test` exists (held by
a task other than `test-1`, so the claim's premise holds).  The conflict
resolution walks `test` → `test-1`, and `test-1` is not counted as a conflict
because it is the name of the task being renamed; the stored final name is
thus `test-1` — the old name itself — and a task named old (`test-1`) still
exists afterwards, contradicting the claim's "no task named old remains". -/
theorem renameCollision_old_persists :
    nameConflicts [⟨"test", "mise.toml"⟩, ⟨"test-1", "mise.toml"⟩] "test-1"
        "test" = true ∧
      renameTask [⟨"test", "mise.toml"⟩, ⟨"test-1", "mise.toml"⟩]
          [("test", "echo a"), ("test-1", "echo b")] "test-1" "test" =
        .ok ([("test", "echo a"), ("test-1", "echo b")], "test-1") ∧
      (([("test", "echo a"), ("test-1", "echo b")] : List (String × String)).any
          (fun p => p.1 == "test-1")) = true :=
  ⟨rfl, rfl, rfl⟩

/-- C7 (amended): for a rename of `old` to `new` where `new` is held by an
existing task other than `old` (and some suffixed candidate within the
search bound is free, which always holds since only finitely many names are
taken), the stored final name is `new` followed by `-k` for the smallest
positive `k` such that `new-k` is not held by any task other than `old`, and
afterwards a task named `old` remains in the tasks table exactly when that
final name is `old` itself (otherwise `old` is gone). -/
theorem renameTask_collision (existingTasks : List MiseTask)
    (tasksTable : List (String × String)) (oldName newName : String)
    (hempty : newName.data.all (fun c => c.isWhitespace) = false)
    (hne : oldName ≠ newName)
    (hconf : nameConflicts existingTasks oldName newName = true)
    (hfree : ∃ k, 1 ≤ k ∧ k ≤ existingTasks.length ∧
      nameConflicts existingTasks oldName (suffixedName newName k) = false)
    (hold : tasksTable.any (fun p => p.1 == oldName) = true) :
    ∃ k table2,
      renameTask existingTasks tasksTable oldName newName =
          .ok (table2, suffixedName newName k) ∧
        1 ≤ k ∧
        nameConflicts existingTasks oldName (suffixedName newName k) = false ∧
        (∀ j, 1 ≤ j → j < k →
          nameConflicts existingTasks oldName (suffixedName newName j) = true) ∧
        (table2.any (fun p => p.1 == oldName) = true ↔
          suffixedName newName k = oldName) := by
  obtain ⟨k, h1, h2, h3, hfinal⟩ :=
    findUniqueTaskName_spec newName existingTasks oldName hconf hfree
  have hsome : (tasksTable.find? (fun p => p.1 == oldName)).isSome := by
    rw [List.find?_isSome]
    rcases List.any_eq_true.mp hold with ⟨p, hp, hpk⟩
    exact ⟨p, hp, hpk⟩
  obtain ⟨q, hq⟩ := Option.isSome_iff_exists.mp hsome
  have hbne : (oldName == newName) = false := beq_eq_false_iff_ne.mpr hne
  refine ⟨k,
    tasksTable.filter (fun p => !(p.1 == oldName)) ++
      [(suffixedName newName k, q.2)], ?_, h1, h2, h3, ?_⟩
  · unfold renameTask renameTaskInConfig
    rw [hempty]
    simp only [Bool.false_eq_true, if_false]
    rw [hbne]
    simp only [Bool.false_eq_true, if_false]
    rw [hfinal, hq]
  · rw [List.any_append]
    have hfilt : (tasksTable.filter (fun p => !(p.1 == oldName))).any
        (fun p => p.1 == oldName) = false := by
      rw [List.any_eq_false]
      intro p hp
      have := List.of_mem_filter hp
      simp only [Bool.not_eq_true'] at this
      rw [this]
      exact Bool.false_ne_true
    rw [hfilt]
    simp [beq_iff_eq]

/-- Witness for C7 (amended): rename `build` to `test` while `test` exists;
the stored name is `test-1` and `build` is gone. -/
theorem renameTask_collision_spot :
    ∃ k table2,
      renameTask [⟨"test", "mise.toml"⟩] [("build", "b"), ("test", "t")]
          "build" "test" = .ok (table2, suffixedName "test" k) ∧
        1 ≤ k ∧
        nameConflicts [⟨"test", "mise.toml"⟩] "build" (suffixedName "test" k) =
          false ∧
        (∀ j, 1 ≤ j → j < k →
          nameConflicts [⟨"test", "mise.toml"⟩] "build"
            (suffixedName "test" j) = true) ∧
        (table2.any (fun p => p.1 == "build") = true ↔
          suffixedName "test" k = "build") :=
  renameTask_collision [⟨"test", "mise.toml"⟩] [("build", "b"), ("test", "t")]
    "build" "test" rfl (by decide) rfl ⟨1, by decide, by decide, rfl⟩ rfl

end MiseSequencer
